import Mathlib

/-!
Verification of the RadiaCode spectrum decoder and XML exporter
(`radiacodescanner.py`).

The decoder (`RadiaCodeSpectrum.__init__`) is embedded as pure Lean
functions over byte buffers modelled as `List Nat` (each entry a byte
value `0..255`; multi-byte fields are little-endian).  Python integers
are arbitrary precision, so decoded channel values are `Int` and
unsigned header fields are `Nat`.  The three Python exceptions raised by
the decoder (`RuntimeError` for a size mismatch, `RuntimeError` for an
unknown width code, and `IndexError` / `struct.error` for reads past the
end of the buffer) are modelled by the error type `DecodeError`, and a
decode attempt returns `Except DecodeError SpectrumRecord`.

The XML document built by `dump_xml` is embedded as a pure tree value;
the on-disk serialization, the wall-clock timestamps and the IEEE-754
float formatting of the calibration coefficients (which no claim
inspects) are abstracted as string parameters of the document builder.
-/

namespace RadiaCode

/-- Errors of a decode attempt, following the error taxonomy of the
specification: a declared-size mismatch, an unrecognized 4-bit width
code, or a read past the end of the buffer (Python raises `IndexError`
or `struct.error` there). -/
inductive DecodeError where
  | malformedSpectrum
  | unsupportedWidthCode
  | truncatedBuffer
deriving DecidableEq, Repr

/-- Signed 8-bit interpretation of one byte, as computed by
`struct.unpack("<b", ...)` in the source.  The byte of a `bytearray` is
always in `0..255`; the `% 256` totalizes the function on `Nat`. -/
def int8OfByte (b : Nat) : Int :=
  if b % 256 < 128 then ((b % 256 : Nat) : Int) else ((b % 256 : Nat) : Int) - 256

/-- Signed 16-bit little-endian interpretation of two bytes, as computed
by `struct.unpack("<h", ...)` in the source. -/
def int16OfBytes (b0 b1 : Nat) : Int :=
  if b0 % 256 + 256 * (b1 % 256) < 32768 then
    ((b0 % 256 + 256 * (b1 % 256) : Nat) : Int)
  else
    ((b0 % 256 + 256 * (b1 % 256) : Nat) : Int) - 65536

/-- Signed 32-bit little-endian interpretation of four bytes, as
computed by `struct.unpack("<i", ...)` in the source (the declared-size
field at bytes `[0,4)`). -/
def int32OfBytes (b0 b1 b2 b3 : Nat) : Int :=
  if b0 % 256 + 256 * (b1 % 256) + 65536 * (b2 % 256) + 16777216 * (b3 % 256)
      < 2147483648 then
    ((b0 % 256 + 256 * (b1 % 256) + 65536 * (b2 % 256) + 16777216 * (b3 % 256) : Nat) : Int)
  else
    ((b0 % 256 + 256 * (b1 % 256) + 65536 * (b2 % 256) + 16777216 * (b3 % 256) : Nat) : Int)
      - 4294967296

/-- Unsigned 32-bit little-endian interpretation of four bytes, as
computed by `struct.unpack("<I", ...)` in the source (the elapsed-time
field at bytes `[16,20)`); also used to keep the raw bit patterns of the
three `<f` calibration-coefficient fields. -/
def u32OfBytes (b0 b1 b2 b3 : Nat) : Nat :=
  b0 % 256 + 256 * (b1 % 256) + 65536 * (b2 % 256) + 16777216 * (b3 % 256)

/-- Reads four consecutive bytes starting at offset `i`, `none` when
any of the four is past the end of the buffer (a `bytes` slice of fewer
than four bytes makes `struct.unpack` fail in the source). -/
def read4? (buf : List Nat) (i : Nat) : Option (Nat × Nat × Nat × Nat) :=
  match buf[i]?, buf[i + 1]?, buf[i + 2]?, buf[i + 3]? with
  | some b0, some b1, some b2, some b3 => some (b0, b1, b2, b3)
  | _, _, _, _ => none

/-- Reads the declared-size field: `struct.unpack("<i", databuffer[0:4])[0]`.
Returns `none` when the buffer holds fewer than four bytes (Python
raises `struct.error`). -/
def declaredSize? (buf : List Nat) : Option Int :=
  match read4? buf 0 with
  | some (b0, b1, b2, b3) => some (int32OfBytes b0 b1 b2 b3)
  | none => none

/-- Reads a 32-bit little-endian field at offset `i`, `none` when any of
the four bytes is past the end of the buffer. -/
def readU32? (buf : List Nat) (i : Nat) : Option Nat :=
  match read4? buf i with
  | some (b0, b1, b2, b3) => some (u32OfBytes b0 b1 b2 b3)
  | none => none

/-- Reads the 16-bit control word at offset `i`:
`((databuffer[i+1] & 0xFF) << 8) | (databuffer[i] & 0xFF)` in the
source.  Returns `none` when a byte is past the end (Python raises
`IndexError`). -/
def readWord? (buf : List Nat) (i : Nat) : Option Nat :=
  match buf[i]?, buf[i + 1]? with
  | some b0, some b1 => some (((b1 &&& 0xFF) <<< 8) ||| (b0 &&& 0xFF))
  | _, _ => none

/-- One iteration of the inner `for` loop of the source: decodes a
single channel value at cursor `i` according to the 4-bit width code
`code`, returning the decoded value together with the advanced cursor.
Each branch is the literal translation of the corresponding `match
var_length` case of the source; a byte read past the end of the buffer
is a `truncatedBuffer` error and a width code other than `0..5` is an
`unsupportedWidthCode` error. -/
def decodeOne (buf : List Nat) (lastValue : Int) (i : Nat) (code : Nat) :
    Except DecodeError (Int × Nat) :=
  match code with
  | 0 => .ok (0, i)
  | 1 =>
    match buf[i]? with
    | some b => .ok (((b &&& 0xFF : Nat) : Int), i + 1)
    | none => .error .truncatedBuffer
  | 2 =>
    match buf[i]? with
    | some b => .ok (lastValue + int8OfByte b, i + 1)
    | none => .error .truncatedBuffer
  | 3 =>
    match buf[i]?, buf[i + 1]? with
    | some b0, some b1 => .ok (lastValue + int16OfBytes b0 b1, i + 2)
    | _, _ => .error .truncatedBuffer
  | 4 =>
    match buf[i]?, buf[i + 1]?, buf[i + 2]? with
    | some b0, some b1, some b2 =>
      .ok (lastValue +
        ((((b2 &&& 0xFF) <<< 16) ||| ((b1 &&& 0xFF) <<< 8) ||| (b0 &&& 0xFF))
          &&& 0xFFFFFF : Nat), i + 3)
    | _, _, _ => .error .truncatedBuffer
  | 5 =>
    match buf[i]?, buf[i + 1]?, buf[i + 2]?, buf[i + 3]? with
    | some b0, some b1, some b2, some b3 =>
      .ok (lastValue +
        (((((b3 &&& 0xFF) <<< 24) ||| ((b2 &&& 0xFF) <<< 16)) |||
          (((b1 &&& 0xFF) <<< 8) ||| (b0 &&& 0xFF))) &&& 0xFFFFFF : Nat), i + 4)
    | _, _, _, _ => .error .truncatedBuffer
  | _ => .error .unsupportedWidthCode

/-- The inner `for _ in range(count_occurrences)` loop of the source:
decodes `count` channel values with width code `code`, threading the
running `last_value`, the cursor and the accumulated output list (the
source appends each decoded value to `self.data` and stores it into
`last_value`). -/
def decodeRun (buf : List Nat) (count : Nat) (code : Nat) (lastValue : Int)
    (i : Nat) (data : List Int) : Except DecodeError (Int × Nat × List Int) :=
  match count with
  | 0 => .ok (lastValue, i, data)
  | n + 1 =>
    match decodeOne buf lastValue i code with
    | .error e => .error e
    | .ok (v, j) => decodeRun buf n code v j (data ++ [v])

/-- The outer `while i < size` loop of the source, with an explicit fuel
argument to make the function structurally recursive (and hence
evaluable by the kernel).  Each iteration reads one control word,
splits it into `count_occurrences = (word >> 4) & 0x0FFF` and
`var_length = word & 0x0F`, and runs the inner loop.  The fuel is an
artifact of the embedding: `decodeLoopFuel_fuel_irrelevant` below shows
that any fuel above `size - i` gives the same result, and the wrapper
`decodeLoop` always supplies enough. -/
def decodeLoopFuel (buf : List Nat) (size : Nat) :
    Nat → Int → Nat → List Int → Except DecodeError (Nat × List Int)
  | 0, _, i, data =>
    if i < size then .error .truncatedBuffer else .ok (i, data)
  | fuel + 1, lastValue, i, data =>
    if i < size then
      match readWord? buf i with
      | none => .error .truncatedBuffer
      | some w =>
        match decodeRun buf ((w >>> 4) &&& 0x0FFF) (w &&& 0x0F) lastValue
            (i + 2) data with
        | .error e => .error e
        | .ok (v, j, d) => decodeLoopFuel buf size fuel v j d
    else
      .ok (i, data)

/-- The channel-decoding loop of the source, starting from an arbitrary
loop state; the supplied fuel `size + 1` is always sufficient (each
iteration advances the cursor by at least two). -/
def decodeLoop (buf : List Nat) (size : Nat) (lastValue : Int) (i : Nat)
    (data : List Int) : Except DecodeError (Nat × List Int) :=
  decodeLoopFuel buf size (size + 1) lastValue i data

/-- The spectrum record assembled by `RadiaCodeSpectrum.__init__`.  The
wall-clock fields `spectrum_recording_start` / `spectrum_recording_end`
(taken from `datetime.now` at decode time) are outside the buffer and
not part of the record model; the three `<f` calibration coefficients
are kept as their raw little-endian 32-bit patterns, since no claim
inspects their IEEE-754 value. -/
structure SpectrumRecord where
  deviceName : String
  deviceSerial : String
  time : Nat
  coefficientBits : List Nat
  data : List Int
deriving DecidableEq, Repr

/-- The decoder `RadiaCodeSpectrum.__init__`: reads the declared size,
checks `declared + 4 = len(buffer)` (raising `malformedSpectrum`
otherwise), reads the elapsed-time field and the three coefficient
fields, then runs the channel-decoding loop from offset 32 with
`last_value = 0` and an empty output list. -/
def decode (deviceName deviceSerial : String) (buf : List Nat) :
    Except DecodeError SpectrumRecord :=
  match declaredSize? buf with
  | none => .error .truncatedBuffer
  | some declared =>
    if declared + 4 ≠ (buf.length : Int) then
      .error .malformedSpectrum
    else
      match readU32? buf 16, readU32? buf 20, readU32? buf 24, readU32? buf 28 with
      | some t, some c0, some c1, some c2 =>
        match decodeLoop buf (declared + 4).toNat 0 32 [] with
        | .error e => .error e
        | .ok (_, data) =>
          .ok ⟨deviceName, deviceSerial, t, [c0, c1, c2], data⟩
      | _, _, _, _ => .error .truncatedBuffer

/-- The duration formatter `format_time` of the source: splits a
non-negative number of seconds into days / hours / minutes / seconds
with `divmod` and concatenates the non-zero parts, comma-space
separated, pluralizing any part larger than one. -/
def formatTime (seconds : Nat) : String :=
  let days := seconds / 86400
  let seconds := seconds % 86400
  let hours := seconds / 3600
  let seconds := seconds % 3600
  let minutes := seconds / 60
  let seconds := seconds % 60
  let result := ""
  let result :=
    if days > 0 then
      result ++ toString days ++ " day" ++ (if days > 1 then "s" else "")
    else result
  let result :=
    if hours > 0 then
      (if result.length > 0 then result ++ ", " else result) ++
        toString hours ++ " hour" ++ (if hours > 1 then "s" else "")
    else result
  let result :=
    if minutes > 0 then
      (if result.length > 0 then result ++ ", " else result) ++
        toString minutes ++ " minute" ++ (if minutes > 1 then "s" else "")
    else result
  let result :=
    if seconds > 0 then
      (if result.length > 0 then result ++ ", " else result) ++
        toString seconds ++ " second" ++ (if seconds > 1 then "s" else "")
    else result
  result

/-- A pure XML element tree: tag name, optional text content and child
elements, in document order.  This models the `lxml` element tree built
by `dump_xml` before it is serialized to disk. -/
inductive Xml where
  | elem (tag : String) (text : Option String) (children : List Xml)

mutual

/-- Collects, in document order, the text content of every element
named `tag` in the tree. -/
def xmlTexts (tag : String) : Xml → List (Option String)
  | .elem t txt cs => (if t = tag then [txt] else []) ++ xmlTextsOfList tag cs

/-- Collects, in document order, the text content of every element
named `tag` in a forest of trees. -/
def xmlTextsOfList (tag : String) : List Xml → List (Option String)
  | [] => []
  | c :: cs => xmlTexts tag c ++ xmlTextsOfList tag cs

end

/-- The document built by `RadiaCodeSpectrum.dump_xml`, element for
element in source order.  The start / end timestamp strings (formatted
from decode-time wall-clock values) and the `"%.7E"` IEEE-754 rendering
of a coefficient (whose bit pattern is `Nat`-encoded in the record) are
abstracted as the parameters `startText`, `endText` and `fmtCoeff`;
the file write itself is outside the model. -/
def dumpXmlDoc (rec : SpectrumRecord) (spectrumname : String)
    (startText endText : String) (fmtCoeff : Nat → String) : Xml :=
  .elem "ResultDataFile" none [
    .elem "FormatVersion" (some "120920") [],
    .elem "ResultDataList" none [
      .elem "ResultData" none [
        .elem "DeviceConfigReference" none [
          .elem "Name" (some rec.deviceName) []],
        .elem "SampleInfo" none [
          .elem "Name" (some spectrumname) [],
          .elem "Note" (some "") []],
        .elem "BackgroundSpectrumFile" (some "") [],
        .elem "StartTime" (some startText) [],
        .elem "EndTime" (some endText) [],
        .elem "EnergySpectrum" none [
          .elem "NumberOfChannels" (some (toString rec.data.length)) [],
          .elem "ChannelPitch" (some "1") [],
          .elem "SpectrumName" (some spectrumname) [],
          .elem "Comment" none [],
          .elem "SerialNumber" (some rec.deviceSerial) [],
          .elem "EnergyCalibration" none [
            .elem "PolynomialOrder" (some "2") [],
            .elem "Coefficients" none
              (rec.coefficientBits.map fun c =>
                .elem "Coefficient" (some (fmtCoeff c)) [])],
          .elem "MeasurementTime" (some (toString rec.time)) [],
          .elem "LiveTime" (some (toString rec.time)) [],
          .elem "Spectrum" none
            (rec.data.map fun d => .elem "DataPoint" (some (toString d)) [])],
        .elem "Visible" (some "true") [],
        .elem "PulseCollection" none [
          .elem "Format" (some "Base64 encoded binary") [],
          .elem "Pulses" none []]]]]

/-- Number of data bytes one decoded value consumes for each width
code: none for width code `0`, one for codes `1` and `2`, two for `3`,
three for `4`, four for `5` (and none for the unsupported codes, which
fail before reading). -/
def bytesNeeded : Nat → Nat
  | 1 => 1
  | 2 => 1
  | 3 => 2
  | 4 => 3
  | 5 => 4
  | _ => 0

/-- Concrete 35-byte buffer: declared size 31, all-zero header and
calibration fields, then one control word `0x0012` (one value of width
code 2) followed by the delta byte `0xFF`, the signed 8-bit value −1. -/
def bufNeg : List Nat :=
  [31, 0, 0, 0] ++ List.replicate 12 0 ++ [0, 0, 0, 0] ++ List.replicate 12 0 ++
    [0x12, 0x00, 0xFF]

/-- Concrete 40-byte buffer: declared size 36, all-zero header and
calibration fields, then three runs: width code 1 with value 5, a width
code 0 run of one zero, and width code 2 with delta +1. -/
def bufC4 : List Nat :=
  [36, 0, 0, 0] ++ List.replicate 12 0 ++ [0, 0, 0, 0] ++ List.replicate 12 0 ++
    [0x11, 0x00, 5, 0x10, 0x00, 0x12, 0x00, 1]

/-!
State-passing variant of the decoder.

Python hands `__init__` a mutable `bytearray`; to express that the
decoder never writes to it, the functions below thread the buffer as an
explicit state through every primitive access, exactly mirroring the
statement order of the source (in particular `databuffer[i+1]` is read
before `databuffer[i]` in the control-word fetch).  The only buffer
operations the source performs are reads; `decodeSt_preserves_buffer_c10`
proves the final state equals the initial one and that the result agrees
with the pure decoder above.
-/

/-- Reads one byte of the buffer state: the `databuffer[i]` expression
of the source, returning the (unchanged) buffer alongside the value. -/
def readByteSt (st : List Nat) (i : Nat) : Option Nat × List Nat :=
  (st[i]?, st)

/-- State-passing variant of `read4?`. -/
def read4St (st : List Nat) (i : Nat) : Option (Nat × Nat × Nat × Nat) × List Nat :=
  match readByteSt st i with
  | (b0?, st1) =>
    match readByteSt st1 (i + 1) with
    | (b1?, st2) =>
      match readByteSt st2 (i + 2) with
      | (b2?, st3) =>
        match readByteSt st3 (i + 3) with
        | (b3?, st4) =>
          match b0?, b1?, b2?, b3? with
          | some b0, some b1, some b2, some b3 => (some (b0, b1, b2, b3), st4)
          | _, _, _, _ => (none, st4)

/-- State-passing variant of `readWord?`; the source evaluates
`databuffer[i+1]` before `databuffer[i]`. -/
def readWordSt (st : List Nat) (i : Nat) : Option Nat × List Nat :=
  match readByteSt st (i + 1) with
  | (b1?, st1) =>
    match readByteSt st1 i with
    | (b0?, st2) =>
      match b1?, b0? with
      | some b1, some b0 => (some (((b1 &&& 0xFF) <<< 8) ||| (b0 &&& 0xFF)), st2)
      | _, _ => (none, st2)

/-- State-passing variant of `decodeOne`. -/
def decodeOneSt (st : List Nat) (lastValue : Int) (i : Nat) (code : Nat) :
    Except DecodeError (Int × Nat) × List Nat :=
  match code with
  | 0 => (.ok (0, i), st)
  | 1 =>
    match readByteSt st i with
    | (some b, st1) => (.ok (((b &&& 0xFF : Nat) : Int), i + 1), st1)
    | (none, st1) => (.error .truncatedBuffer, st1)
  | 2 =>
    match readByteSt st i with
    | (some b, st1) => (.ok (lastValue + int8OfByte b, i + 1), st1)
    | (none, st1) => (.error .truncatedBuffer, st1)
  | 3 =>
    match readByteSt st i with
    | (b0?, st1) =>
      match readByteSt st1 (i + 1) with
      | (b1?, st2) =>
        match b0?, b1? with
        | some b0, some b1 => (.ok (lastValue + int16OfBytes b0 b1, i + 2), st2)
        | _, _ => (.error .truncatedBuffer, st2)
  | 4 =>
    match readByteSt st (i + 2) with
    | (b2?, st1) =>
      match readByteSt st1 (i + 1) with
      | (b1?, st2) =>
        match readByteSt st2 i with
        | (b0?, st3) =>
          match b2?, b1?, b0? with
          | some b2, some b1, some b0 =>
            (.ok (lastValue +
              ((((b2 &&& 0xFF) <<< 16) ||| ((b1 &&& 0xFF) <<< 8) ||| (b0 &&& 0xFF))
                &&& 0xFFFFFF : Nat), i + 3), st3)
          | _, _, _ => (.error .truncatedBuffer, st3)
  | 5 =>
    match readByteSt st (i + 3) with
    | (b3?, st1) =>
      match readByteSt st1 (i + 2) with
      | (b2?, st2) =>
        match readByteSt st2 (i + 1) with
        | (b1?, st3) =>
          match readByteSt st3 i with
          | (b0?, st4) =>
            match b3?, b2?, b1?, b0? with
            | some b3, some b2, some b1, some b0 =>
              (.ok (lastValue +
                (((((b3 &&& 0xFF) <<< 24) ||| ((b2 &&& 0xFF) <<< 16)) |||
                  (((b1 &&& 0xFF) <<< 8) ||| (b0 &&& 0xFF))) &&& 0xFFFFFF : Nat),
                i + 4), st4)
            | _, _, _, _ => (.error .truncatedBuffer, st4)
  | _ => (.error .unsupportedWidthCode, st)

/-- State-passing variant of `decodeRun`. -/
def decodeRunSt (st : List Nat) (count code : Nat) (lastValue : Int) (i : Nat)
    (data : List Int) : Except DecodeError (Int × Nat × List Int) × List Nat :=
  match count with
  | 0 => (.ok (lastValue, i, data), st)
  | n + 1 =>
    match decodeOneSt st lastValue i code with
    | (.error e, st1) => (.error e, st1)
    | (.ok (v, j), st1) => decodeRunSt st1 n code v j (data ++ [v])

/-- State-passing variant of `decodeLoopFuel`. -/
def decodeLoopFuelSt (size : Nat) :
    Nat → List Nat → Int → Nat → List Int →
      Except DecodeError (Nat × List Int) × List Nat
  | 0, st, _, i, data =>
    (if i < size then .error .truncatedBuffer else .ok (i, data), st)
  | fuel + 1, st, lastValue, i, data =>
    if i < size then
      match readWordSt st i with
      | (none, st1) => (.error .truncatedBuffer, st1)
      | (some w, st1) =>
        match decodeRunSt st1 ((w >>> 4) &&& 0x0FFF) (w &&& 0x0F) lastValue
            (i + 2) data with
        | (.error e, st2) => (.error e, st2)
        | (.ok (v, j, d), st2) => decodeLoopFuelSt size fuel st2 v j d
    else
      (.ok (i, data), st)

/-- State-passing variant of `decode`: the whole decode attempt with
the buffer threaded as explicit state through every read. -/
def decodeSt (deviceName deviceSerial : String) (st : List Nat) :
    Except DecodeError SpectrumRecord × List Nat :=
  match read4St st 0 with
  | (none, st1) => (.error .truncatedBuffer, st1)
  | (some (a0, a1, a2, a3), st1) =>
    if int32OfBytes a0 a1 a2 a3 + 4 ≠ (st1.length : Int) then
      (.error .malformedSpectrum, st1)
    else
      match read4St st1 16 with
      | (none, st2) => (.error .truncatedBuffer, st2)
      | (some (t0, t1, t2, t3), st2) =>
        match read4St st2 20 with
        | (none, st3) => (.error .truncatedBuffer, st3)
        | (some (c00, c01, c02, c03), st3) =>
          match read4St st3 24 with
          | (none, st4) => (.error .truncatedBuffer, st4)
          | (some (c10, c11, c12, c13), st4) =>
            match read4St st4 28 with
            | (none, st5) => (.error .truncatedBuffer, st5)
            | (some (c20, c21, c22, c23), st5) =>
              match decodeLoopFuelSt (int32OfBytes a0 a1 a2 a3 + 4).toNat
                  ((int32OfBytes a0 a1 a2 a3 + 4).toNat + 1) st5 0 32 [] with
              | (.error e, st6) => (.error e, st6)
              | (.ok (_, data), st6) =>
                (.ok ⟨deviceName, deviceSerial, u32OfBytes t0 t1 t2 t3,
                  [u32OfBytes c00 c01 c02 c03, u32OfBytes c10 c11 c12 c13,
                    u32OfBytes c20 c21 c22 c23], data⟩, st6)

/-! Arithmetic facts about the bit manipulations of the decoder. -/

lemma and_255_eq_mod (b : Nat) : b &&& 0xFF = b % 256 := by
  have h : (0xFF : Nat) = 2 ^ 8 - 1 := by norm_num
  rw [h, Nat.and_pow_two_sub_one_eq_mod]

lemma and_mask24_eq_mod (x : Nat) : x &&& 0xFFFFFF = x % 16777216 := by
  have h : (0xFFFFFF : Nat) = 2 ^ 24 - 1 := by norm_num
  rw [h, Nat.and_pow_two_sub_one_eq_mod]

lemma shiftLeft_or_eq_add {b : Nat} (n a : Nat) (h : b < 2 ^ n) :
    (a <<< n) ||| b = 2 ^ n * a + b := by
  rw [Nat.shiftLeft_eq, Nat.mul_comm]
  exact (Nat.mul_add_lt_is_or h a).symm

lemma or3_bytes (b0 b1 b2 : Nat) :
    ((b2 &&& 0xFF) <<< 16) ||| ((b1 &&& 0xFF) <<< 8) ||| (b0 &&& 0xFF) =
      65536 * (b2 % 256) + 256 * (b1 % 256) + b0 % 256 := by
  rw [and_255_eq_mod, and_255_eq_mod, and_255_eq_mod]
  have h0 : b0 % 256 < 256 := Nat.mod_lt _ (by norm_num)
  have h1 : b1 % 256 < 256 := Nat.mod_lt _ (by norm_num)
  have e1 : ((b2 % 256) <<< 16) ||| ((b1 % 256) <<< 8) =
      2 ^ 16 * (b2 % 256) + 2 ^ 8 * (b1 % 256) := by
    have hlt : (b1 % 256) <<< 8 < 2 ^ 16 := by
      rw [Nat.shiftLeft_eq]
      norm_num
      omega
    rw [shiftLeft_or_eq_add 16 _ hlt, Nat.shiftLeft_eq]
    ring
  have e2 : 2 ^ 16 * (b2 % 256) + 2 ^ 8 * (b1 % 256) =
      2 ^ 8 * (2 ^ 8 * (b2 % 256) + b1 % 256) := by ring
  rw [e1, e2, ← Nat.mul_add_lt_is_or (by norm_num; omega) (2 ^ 8 * (b2 % 256) + b1 % 256)]
  ring

lemma or4_bytes (b0 b1 b2 b3 : Nat) :
    (((b3 &&& 0xFF) <<< 24) ||| ((b2 &&& 0xFF) <<< 16)) |||
        (((b1 &&& 0xFF) <<< 8) ||| (b0 &&& 0xFF)) =
      16777216 * (b3 % 256) + 65536 * (b2 % 256) + 256 * (b1 % 256) + b0 % 256 := by
  rw [and_255_eq_mod, and_255_eq_mod, and_255_eq_mod, and_255_eq_mod]
  have h0 : b0 % 256 < 256 := Nat.mod_lt _ (by norm_num)
  have h1 : b1 % 256 < 256 := Nat.mod_lt _ (by norm_num)
  have h2 : b2 % 256 < 256 := Nat.mod_lt _ (by norm_num)
  have eHi : ((b3 % 256) <<< 24) ||| ((b2 % 256) <<< 16) =
      2 ^ 24 * (b3 % 256) + 2 ^ 16 * (b2 % 256) := by
    have hlt : (b2 % 256) <<< 16 < 2 ^ 24 := by
      rw [Nat.shiftLeft_eq]
      norm_num
      omega
    rw [shiftLeft_or_eq_add 24 _ hlt, Nat.shiftLeft_eq]
    ring
  have eLo : ((b1 % 256) <<< 8) ||| (b0 % 256) = 2 ^ 8 * (b1 % 256) + b0 % 256 := by
    have hlt : b0 % 256 < 2 ^ 8 := by norm_num; omega
    rw [shiftLeft_or_eq_add 8 _ hlt]
  have eHi2 : 2 ^ 24 * (b3 % 256) + 2 ^ 16 * (b2 % 256) =
      2 ^ 16 * (2 ^ 8 * (b3 % 256) + b2 % 256) := by ring
  have hLoLt : 2 ^ 8 * (b1 % 256) + b0 % 256 < 2 ^ 16 := by norm_num; omega
  rw [eHi, eLo, eHi2, ← Nat.mul_add_lt_is_or hLoLt (2 ^ 8 * (b3 % 256) + b2 % 256)]
  ring

lemma int8OfByte_lowerBound (b : Nat) : -128 ≤ int8OfByte b := by
  unfold int8OfByte
  split <;> omega

lemma int16OfBytes_lowerBound (b0 b1 : Nat) : -32768 ≤ int16OfBytes b0 b1 := by
  unfold int16OfBytes
  have h0 : b0 % 256 < 256 := Nat.mod_lt _ (by norm_num)
  have h1 : b1 % 256 < 256 := Nat.mod_lt _ (by norm_num)
  split <;> omega

/-! Structural facts about one decoding step. -/

set_option maxRecDepth 8000

lemma decodeOne_spec (buf : List Nat) (lastValue : Int) (i code : Nat) :
    (decodeOne buf lastValue i code = .error .truncatedBuffer ∨
      decodeOne buf lastValue i code = .error .unsupportedWidthCode) ∨
    ∃ v j, decodeOne buf lastValue i code = .ok (v, j) ∧ i ≤ j ∧
      (0 ≤ v ∨ lastValue - 32768 ≤ v) := by
  rcases code with _ | _ | _ | _ | _ | _ | c
  · exact .inr ⟨0, i, rfl, Nat.le_refl i, .inl (le_refl 0)⟩
  · cases h : buf[i]? with
    | none => exact .inl (.inl (by simp [decodeOne, h]))
    | some b =>
      exact .inr ⟨((b &&& 0xFF : Nat) : Int), i + 1, by simp [decodeOne, h],
        by omega, .inl (Int.natCast_nonneg _)⟩
  · cases h : buf[i]? with
    | none => exact .inl (.inl (by simp [decodeOne, h]))
    | some b =>
      refine .inr ⟨lastValue + int8OfByte b, i + 1, by simp [decodeOne, h],
        by omega, .inr ?_⟩
      have := int8OfByte_lowerBound b
      omega
  · rcases h0 : buf[i]? with _ | b0 <;> rcases h1 : buf[i + 1]? with _ | b1
    case some.some =>
      refine .inr ⟨lastValue + int16OfBytes b0 b1, i + 2,
        by simp [decodeOne, h0, h1], by omega, .inr ?_⟩
      have := int16OfBytes_lowerBound b0 b1
      omega
    all_goals exact .inl (.inl (by simp [decodeOne, h0, h1]))
  · rcases h0 : buf[i]? with _ | b0 <;> rcases h1 : buf[i + 1]? with _ | b1 <;>
      rcases h2 : buf[i + 2]? with _ | b2
    case some.some.some =>
      exact .inr ⟨lastValue +
        ((((b2 &&& 0xFF) <<< 16) ||| ((b1 &&& 0xFF) <<< 8) ||| (b0 &&& 0xFF))
          &&& 0xFFFFFF : Nat), i + 3,
        by simp [decodeOne, h0, h1, h2], by omega, .inr (by omega)⟩
    all_goals exact .inl (.inl (by simp [decodeOne, h0, h1, h2]))
  · rcases h0 : buf[i]? with _ | b0 <;> rcases h1 : buf[i + 1]? with _ | b1 <;>
      rcases h2 : buf[i + 2]? with _ | b2 <;> rcases h3 : buf[i + 3]? with _ | b3
    case some.some.some.some =>
      exact .inr ⟨lastValue +
        (((((b3 &&& 0xFF) <<< 24) ||| ((b2 &&& 0xFF) <<< 16)) |||
          (((b1 &&& 0xFF) <<< 8) ||| (b0 &&& 0xFF))) &&& 0xFFFFFF : Nat), i + 4,
        by simp [decodeOne, h0, h1, h2, h3], by omega, .inr (by omega)⟩
    all_goals exact .inl (.inl (by simp [decodeOne, h0, h1, h2, h3]))
  · exact .inl (.inr rfl)

lemma decodeOne_ne_malformed (buf : List Nat) (lastValue : Int) (i code : Nat) :
    decodeOne buf lastValue i code ≠ .error .malformedSpectrum := by
  rcases decodeOne_spec buf lastValue i code with (h | h) | ⟨v, j, h, _, _⟩ <;>
    simp [h]

lemma decodeOne_ok_le {buf : List Nat} {lastValue v : Int} {i j code : Nat}
    (h : decodeOne buf lastValue i code = .ok (v, j)) : i ≤ j := by
  rcases decodeOne_spec buf lastValue i code with (h2 | h2) | ⟨v2, j2, h2, hle, _⟩ <;>
    rw [h] at h2
  · exact absurd h2 (by simp)
  · exact absurd h2 (by simp)
  · obtain ⟨rfl, rfl⟩ : v = v2 ∧ j = j2 := by simpa using h2
    exact hle

lemma decodeOne_ok_bound {buf : List Nat} {lastValue v : Int} {i j code : Nat}
    (h : decodeOne buf lastValue i code = .ok (v, j)) :
    0 ≤ v ∨ lastValue - 32768 ≤ v := by
  rcases decodeOne_spec buf lastValue i code with (h2 | h2) | ⟨v2, j2, h2, _, hb⟩ <;>
    rw [h] at h2
  · exact absurd h2 (by simp)
  · exact absurd h2 (by simp)
  · obtain ⟨rfl, rfl⟩ : v = v2 ∧ j = j2 := by simpa using h2
    exact hb

/-! Structural facts about one run of equally-coded values. -/

lemma decodeRun_ne_malformed :
    ∀ (n : Nat) (buf : List Nat) (code : Nat) (lastValue : Int) (i : Nat)
      (data : List Int),
      decodeRun buf n code lastValue i data ≠ .error .malformedSpectrum := by
  intro n
  induction n with
  | zero => intro buf code lastValue i data; simp [decodeRun]
  | succ m ih =>
    intro buf code lastValue i data h
    simp only [decodeRun] at h
    cases h1 : decodeOne buf lastValue i code with
    | error e =>
      rw [h1] at h
      dsimp only at h
      have hne := decodeOne_ne_malformed buf lastValue i code
      rw [h1] at hne
      obtain rfl : e = .malformedSpectrum := by simpa using h
      exact hne rfl
    | ok p =>
      obtain ⟨v, j⟩ := p
      rw [h1] at h
      dsimp only at h
      exact ih buf code v j (data ++ [v]) h

lemma decodeRun_cursor_le :
    ∀ (n : Nat) (buf : List Nat) (code : Nat) (lastValue v : Int) (i j : Nat)
      (data d : List Int),
      decodeRun buf n code lastValue i data = .ok (v, j, d) → i ≤ j := by
  intro n
  induction n with
  | zero =>
    intro buf code lastValue v i j data d h
    simp only [decodeRun] at h
    obtain ⟨-, h2, -⟩ : lastValue = v ∧ i = j ∧ data = d := by simpa using h
    omega
  | succ m ih =>
    intro buf code lastValue v i j data d h
    simp only [decodeRun] at h
    cases h1 : decodeOne buf lastValue i code with
    | error e => rw [h1] at h; simp at h
    | ok p =>
      obtain ⟨v1, j1⟩ := p
      rw [h1] at h
      dsimp only at h
      exact Nat.le_trans (decodeOne_ok_le h1) (ih buf code v1 v j1 j _ d h)

lemma decodeRun_bound :
    ∀ (n : Nat) (buf : List Nat) (code : Nat) (lastValue v : Int) (i j : Nat)
      (data d : List Int),
      decodeRun buf n code lastValue i data = .ok (v, j, d) →
      -32768 * (data.length : Int) ≤ lastValue →
      (∀ (k : Nat) (x : Int), data[k]? = some x → -32768 * ((k : Int) + 1) ≤ x) →
      -32768 * (d.length : Int) ≤ v ∧
        ∀ (k : Nat) (x : Int), d[k]? = some x → -32768 * ((k : Int) + 1) ≤ x := by
  intro n
  induction n with
  | zero =>
    intro buf code lastValue v i j data d h hlast hdata
    simp only [decodeRun] at h
    obtain ⟨rfl, -, rfl⟩ : lastValue = v ∧ i = j ∧ data = d := by simpa using h
    exact ⟨hlast, hdata⟩
  | succ m ih =>
    intro buf code lastValue v i j data d h hlast hdata
    simp only [decodeRun] at h
    cases h1 : decodeOne buf lastValue i code with
    | error e => rw [h1] at h; simp at h
    | ok p =>
      obtain ⟨v1, j1⟩ := p
      rw [h1] at h
      dsimp only at h
      have hb := decodeOne_ok_bound h1
      have hlen1 : -32768 * (((data ++ [v1]).length : Nat) : Int) ≤ v1 := by
        simp only [List.length_append, List.length_cons, List.length_nil]
        push_cast
        rcases hb with hb | hb <;> omega
      have hdata1 : ∀ (k : Nat) (x : Int), (data ++ [v1])[k]? = some x →
          -32768 * ((k : Int) + 1) ≤ x := by
        intro k x hk
        by_cases hlt : k < data.length
        · rw [List.getElem?_append_left hlt] at hk
          exact hdata k x hk
        · rcases Nat.lt_or_ge data.length k with hgt | hge
          · rw [List.getElem?_append_right (by omega)] at hk
            have h1lt : (1 : Nat) ≤ k - data.length := by omega
            rw [List.getElem?_eq_none (by simpa using h1lt)] at hk
            exact absurd hk (by simp)
          · have hk2 : k = data.length := by omega
            subst hk2
            rw [List.getElem?_concat_length] at hk
            obtain rfl : v1 = x := by simpa using hk
            simp only [List.length_append, List.length_cons, List.length_nil]
              at hlen1
            push_cast at hlen1 ⊢
            omega
      exact ih buf code v1 v j1 j _ d h hlen1 hdata1

/-! Structural facts about the outer decoding loop. -/

lemma decodeLoopFuel_ne_malformed :
    ∀ (fuel : Nat) (buf : List Nat) (size : Nat) (lastValue : Int) (i : Nat)
      (data : List Int),
      decodeLoopFuel buf size fuel lastValue i data ≠ .error .malformedSpectrum := by
  intro fuel
  induction fuel with
  | zero =>
    intro buf size lastValue i data
    simp only [decodeLoopFuel]
    split <;> simp
  | succ m ih =>
    intro buf size lastValue i data h
    simp only [decodeLoopFuel] at h
    by_cases hi : i < size
    · rw [if_pos hi] at h
      cases hw : readWord? buf i with
      | none => rw [hw] at h; simp at h
      | some w =>
        rw [hw] at h
        dsimp only at h
        cases hr : decodeRun buf ((w >>> 4) &&& 0x0FFF) (w &&& 0x0F) lastValue
            (i + 2) data with
        | error e =>
          rw [hr] at h
          dsimp only at h
          have hne := decodeRun_ne_malformed ((w >>> 4) &&& 0x0FFF) buf
            (w &&& 0x0F) lastValue (i + 2) data
          rw [hr] at hne
          obtain rfl : e = .malformedSpectrum := by simpa using h
          exact hne rfl
        | ok p =>
          obtain ⟨v, j, d⟩ := p
          rw [hr] at h
          dsimp only at h
          exact ih buf size v j d h
    · rw [if_neg hi] at h
      simp at h

lemma decodeLoopFuel_ok_ge :
    ∀ (fuel : Nat) (buf : List Nat) (size : Nat) (lastValue : Int) (i : Nat)
      (data : List Int) (j : Nat) (d : List Int),
      decodeLoopFuel buf size fuel lastValue i data = .ok (j, d) → size ≤ j := by
  intro fuel
  induction fuel with
  | zero =>
    intro buf size lastValue i data j d h
    simp only [decodeLoopFuel] at h
    by_cases hi : i < size
    · rw [if_pos hi] at h
      simp at h
    · rw [if_neg hi] at h
      obtain ⟨h1, -⟩ : i = j ∧ data = d := by simpa using h
      omega
  | succ m ih =>
    intro buf size lastValue i data j d h
    simp only [decodeLoopFuel] at h
    by_cases hi : i < size
    · rw [if_pos hi] at h
      cases hw : readWord? buf i with
      | none => rw [hw] at h; simp at h
      | some w =>
        rw [hw] at h
        dsimp only at h
        cases hr : decodeRun buf ((w >>> 4) &&& 0x0FFF) (w &&& 0x0F) lastValue
            (i + 2) data with
        | error e => rw [hr] at h; simp at h
        | ok p =>
          obtain ⟨v, j1, d1⟩ := p
          rw [hr] at h
          dsimp only at h
          exact ih buf size v j1 d1 j d h
    · rw [if_neg hi] at h
      obtain ⟨h1, -⟩ : i = j ∧ data = d := by simpa using h
      omega

lemma decodeLoopFuel_bound :
    ∀ (fuel : Nat) (buf : List Nat) (size : Nat) (lastValue : Int) (i : Nat)
      (data : List Int) (j : Nat) (d : List Int),
      decodeLoopFuel buf size fuel lastValue i data = .ok (j, d) →
      -32768 * (data.length : Int) ≤ lastValue →
      (∀ (k : Nat) (x : Int), data[k]? = some x → -32768 * ((k : Int) + 1) ≤ x) →
      ∀ (k : Nat) (x : Int), d[k]? = some x → -32768 * ((k : Int) + 1) ≤ x := by
  intro fuel
  induction fuel with
  | zero =>
    intro buf size lastValue i data j d h _ hdata
    simp only [decodeLoopFuel] at h
    by_cases hi : i < size
    · rw [if_pos hi] at h
      simp at h
    · rw [if_neg hi] at h
      obtain ⟨-, rfl⟩ : i = j ∧ data = d := by simpa using h
      exact hdata
  | succ m ih =>
    intro buf size lastValue i data j d h hlast hdata
    simp only [decodeLoopFuel] at h
    by_cases hi : i < size
    · rw [if_pos hi] at h
      cases hw : readWord? buf i with
      | none => rw [hw] at h; simp at h
      | some w =>
        rw [hw] at h
        dsimp only at h
        cases hr : decodeRun buf ((w >>> 4) &&& 0x0FFF) (w &&& 0x0F) lastValue
            (i + 2) data with
        | error e => rw [hr] at h; simp at h
        | ok p =>
          obtain ⟨v, j1, d1⟩ := p
          rw [hr] at h
          dsimp only at h
          obtain ⟨hlast1, hdata1⟩ := decodeRun_bound _ buf (w &&& 0x0F)
            lastValue v (i + 2) j1 data d1 hr hlast hdata
          exact ih buf size v j1 d1 j d h hlast1 hdata1
    · rw [if_neg hi] at h
      obtain ⟨-, rfl⟩ : i = j ∧ data = d := by simpa using h
      exact hdata

lemma decodeLoopFuel_fuel_irrelevant :
    ∀ (f g : Nat) (buf : List Nat) (size : Nat) (lastValue : Int) (i : Nat)
      (data : List Int), size - i < f → size - i < g →
      decodeLoopFuel buf size f lastValue i data =
        decodeLoopFuel buf size g lastValue i data := by
  intro f
  induction f with
  | zero => intro g buf size lastValue i data hf; omega
  | succ m ih =>
    intro g buf size lastValue i data hf hg
    cases g with
    | zero => omega
    | succ g1 =>
      simp only [decodeLoopFuel]
      by_cases hi : i < size
      · rw [if_pos hi, if_pos hi]
        cases hw : readWord? buf i with
        | none => rfl
        | some w =>
          dsimp only
          cases hr : decodeRun buf ((w >>> 4) &&& 0x0FFF) (w &&& 0x0F) lastValue
              (i + 2) data with
          | error e => rfl
          | ok p =>
            obtain ⟨v, j, d⟩ := p
            dsimp only
            have hj : i + 2 ≤ j := decodeRun_cursor_le _ buf (w &&& 0x0F)
              lastValue v (i + 2) j data d hr
            exact ih g1 buf size v j d (by omega) (by omega)
      · rw [if_neg hi, if_neg hi]


/-! Facts about the XML text collector. -/

lemma xmlTextsOfList_map_leaf {α : Type} (tag name : String) (f : α → Option String)
    (l : List α) :
    xmlTextsOfList tag (l.map fun a => Xml.elem name (f a) []) =
      if name = tag then l.map f else [] := by
  induction l with
  | nil => simp [xmlTextsOfList]
  | cons a as ih =>
    simp only [List.map_cons, xmlTextsOfList, xmlTexts, ih]
    split <;> simp [xmlTextsOfList]

/-! Agreement of the state-passing decoder with the pure decoder, and
preservation of the buffer state. -/

lemma read4St_spec (st : List Nat) (i : Nat) : read4St st i = (read4? st i, st) := by
  cases h0 : st[i]? <;> cases h1 : st[i + 1]? <;> cases h2 : st[i + 2]? <;>
    cases h3 : st[i + 3]? <;>
    simp [read4St, read4?, readByteSt, h0, h1, h2, h3]

lemma readWordSt_spec (st : List Nat) (i : Nat) :
    readWordSt st i = (readWord? st i, st) := by
  cases h0 : st[i]? <;> cases h1 : st[i + 1]? <;>
    simp [readWordSt, readWord?, readByteSt, h0, h1]

lemma decodeOneSt_spec (st : List Nat) (lastValue : Int) (i code : Nat) :
    decodeOneSt st lastValue i code = (decodeOne st lastValue i code, st) := by
  rcases code with _ | _ | _ | _ | _ | _ | c
  · rfl
  · cases h : st[i]? <;> simp [decodeOneSt, decodeOne, readByteSt, h]
  · cases h : st[i]? <;> simp [decodeOneSt, decodeOne, readByteSt, h]
  · cases h0 : st[i]? <;> cases h1 : st[i + 1]? <;>
      simp [decodeOneSt, decodeOne, readByteSt, h0, h1]
  · cases h0 : st[i]? <;> cases h1 : st[i + 1]? <;> cases h2 : st[i + 2]? <;>
      simp [decodeOneSt, decodeOne, readByteSt, h0, h1, h2]
  · cases h0 : st[i]? <;> cases h1 : st[i + 1]? <;> cases h2 : st[i + 2]? <;>
      cases h3 : st[i + 3]? <;>
      simp [decodeOneSt, decodeOne, readByteSt, h0, h1, h2, h3]
  · rfl

lemma decodeRunSt_spec :
    ∀ (n : Nat) (st : List Nat) (code : Nat) (lastValue : Int) (i : Nat)
      (data : List Int),
      decodeRunSt st n code lastValue i data =
        (decodeRun st n code lastValue i data, st) := by
  intro n
  induction n with
  | zero => intro st code lastValue i data; rfl
  | succ m ih =>
    intro st code lastValue i data
    simp only [decodeRunSt, decodeRun, decodeOneSt_spec]
    cases h : decodeOne st lastValue i code with
    | error e => rfl
    | ok p =>
      obtain ⟨v, j⟩ := p
      dsimp only
      exact ih st code v j (data ++ [v])

lemma decodeLoopFuelSt_spec :
    ∀ (fuel : Nat) (st : List Nat) (size : Nat) (lastValue : Int) (i : Nat)
      (data : List Int),
      decodeLoopFuelSt size fuel st lastValue i data =
        (decodeLoopFuel st size fuel lastValue i data, st) := by
  intro fuel
  induction fuel with
  | zero => intro st size lastValue i data; rfl
  | succ m ih =>
    intro st size lastValue i data
    simp only [decodeLoopFuelSt, decodeLoopFuel, readWordSt_spec, decodeRunSt_spec]
    by_cases hi : i < size
    · rw [if_pos hi, if_pos hi]
      cases hw : readWord? st i with
      | none => rfl
      | some w =>
        dsimp only
        cases hr : decodeRun st ((w >>> 4) &&& 0x0FFF) (w &&& 0x0F) lastValue
            (i + 2) data with
        | error e => rfl
        | ok p =>
          obtain ⟨v, j, d⟩ := p
          dsimp only
          exact ih st size v j d
    · rw [if_neg hi, if_neg hi]

lemma decodeSt_spec (name serial : String) (st : List Nat) :
    decodeSt name serial st = (decode name serial st, st) := by
  simp only [decodeSt, decode, decodeLoop, declaredSize?, readU32?, read4St_spec,
    decodeLoopFuelSt_spec]
  cases hq : read4? st 0 with
  | none => rfl
  | some q =>
    obtain ⟨a0, a1, a2, a3⟩ := q
    dsimp only
    by_cases hc : int32OfBytes a0 a1 a2 a3 + 4 ≠ (st.length : Int)
    · rw [if_pos hc, if_pos hc]
    · rw [if_neg hc, if_neg hc]
      cases h16 : read4? st 16 with
      | none => rfl
      | some q16 =>
        obtain ⟨t0, t1, t2, t3⟩ := q16
        dsimp only
        cases h20 : read4? st 20 with
        | none => rfl
        | some q20 =>
          obtain ⟨c00, c01, c02, c03⟩ := q20
          dsimp only
          cases h24 : read4? st 24 with
          | none => rfl
          | some q24 =>
            obtain ⟨c10, c11, c12, c13⟩ := q24
            dsimp only
            cases h28 : read4? st 28 with
            | none => rfl
            | some q28 =>
              obtain ⟨c20, c21, c22, c23⟩ := q28
              dsimp only
              cases hl : decodeLoopFuel st (int32OfBytes a0 a1 a2 a3 + 4).toNat
                  ((int32OfBytes a0 a1 a2 a3 + 4).toNat + 1) 0 32 [] with
              | error e => rfl
              | ok p =>
                obtain ⟨j, data⟩ := p
                rfl

/-! Arithmetic characterizations of the decoded values for width codes
4 and 5. -/

lemma decodeOne_code4_val (buf : List Nat) (lastValue : Int) (i : Nat)
    (b0 b1 b2 : Nat) (h0 : buf[i]? = some b0) (h1 : buf[i + 1]? = some b1)
    (h2 : buf[i + 2]? = some b2) :
    decodeOne buf lastValue i 4 =
      .ok (lastValue +
        ((b0 % 256 + 256 * (b1 % 256) + 65536 * (b2 % 256) : Nat) : Int), i + 3) := by
  simp only [decodeOne, h0, h1, h2]
  rw [or3_bytes, and_mask24_eq_mod]
  have hmod : (65536 * (b2 % 256) + 256 * (b1 % 256) + b0 % 256) % 16777216 =
      b0 % 256 + 256 * (b1 % 256) + 65536 * (b2 % 256) := by omega
  rw [hmod]

lemma decodeOne_code5_val (buf : List Nat) (lastValue : Int) (i : Nat)
    (b0 b1 b2 b3 : Nat) (h0 : buf[i]? = some b0) (h1 : buf[i + 1]? = some b1)
    (h2 : buf[i + 2]? = some b2) (h3 : buf[i + 3]? = some b3) :
    decodeOne buf lastValue i 5 =
      .ok (lastValue +
        ((b0 % 256 + 256 * (b1 % 256) + 65536 * (b2 % 256) : Nat) : Int), i + 4) := by
  simp only [decodeOne, h0, h1, h2, h3]
  rw [or4_bytes, and_mask24_eq_mod]
  have hmod : (16777216 * (b3 % 256) + 65536 * (b2 % 256) + 256 * (b1 % 256) +
      b0 % 256) % 16777216 =
      b0 % 256 + 256 * (b1 % 256) + 65536 * (b2 % 256) := by omega
  rw [hmod]

/-! The claims. -/

/-- C1: for every buffer carrying a declared-size field (signed 32-bit
little-endian at bytes `[0,4)`) whose value plus 4 differs from the
buffer length, `decode` fails with `malformedSpectrum` before any
channel decoding, and no record is produced; when the value plus 4
equals the length, the size check passes and `malformedSpectrum` is
never raised. -/
theorem decode_sizeCheck_c1 (name serial : String) (buf : List Nat) (d : Int)
    (h : declaredSize? buf = some d) :
    (d + 4 ≠ (buf.length : Int) → decode name serial buf = .error .malformedSpectrum) ∧
    (d + 4 = (buf.length : Int) → decode name serial buf ≠ .error .malformedSpectrum) := by
  constructor
  · intro hne
    simp only [decode]
    rw [h]
    dsimp only
    rw [if_pos hne]
  · intro heq h2
    simp only [decode] at h2
    rw [h] at h2
    dsimp only at h2
    rw [if_neg (by omega : ¬d + 4 ≠ (buf.length : Int))] at h2
    cases r16 : readU32? buf 16 with
    | none => rw [r16] at h2; simp at h2
    | some t =>
      rw [r16] at h2
      cases r20 : readU32? buf 20 with
      | none => rw [r20] at h2; simp at h2
      | some c0 =>
        rw [r20] at h2
        cases r24 : readU32? buf 24 with
        | none => rw [r24] at h2; simp at h2
        | some c1 =>
          rw [r24] at h2
          cases r28 : readU32? buf 28 with
          | none => rw [r28] at h2; simp at h2
          | some c2 =>
            rw [r28] at h2
            dsimp only at h2
            cases hl : decodeLoop buf (d + 4).toNat 0 32 [] with
            | error e =>
              rw [hl] at h2
              dsimp only at h2
              have hne := decodeLoopFuel_ne_malformed ((d + 4).toNat + 1) buf
                (d + 4).toNat 0 32 []
              rw [show decodeLoopFuel buf (d + 4).toNat ((d + 4).toNat + 1) 0 32 []
                  = decodeLoop buf (d + 4).toNat 0 32 [] from rfl, hl] at hne
              obtain rfl : e = .malformedSpectrum := by simpa using h2
              exact hne rfl
            | ok p =>
              obtain ⟨j, dat⟩ := p
              rw [hl] at h2
              simp at h2

/-- Witness for C1: the buffer `[1,0,0,0]` declares size 1 with length
4 (so `1 + 4 ≠ 4`) and is rejected as malformed, while `[0,0,0,0]`
declares size 0 with length 4 and passes the size check (it fails
later, but not with `malformedSpectrum`). -/
theorem decode_sizeCheck_c1_witness :
    decode "RC-102" "001" [1, 0, 0, 0] = .error .malformedSpectrum ∧
    decode "RC-102" "001" [0, 0, 0, 0] ≠ .error .malformedSpectrum := by
  constructor
  · exact (decode_sizeCheck_c1 "RC-102" "001" [1, 0, 0, 0] 1 rfl).1 (by decide)
  · exact (decode_sizeCheck_c1 "RC-102" "001" [0, 0, 0, 0] 0 rfl).2 (by decide)

/-- C2: a value decoded under width code 1 is the next byte as an
unsigned 8-bit integer, independent of `last_value`; width codes 2, 3,
4 and 5 produce `last_value` plus the decoded delta: the signed 8-bit
byte, the signed 16-bit little-endian pair, the 24-bit little-endian
triple, and the low 24 bits of the little-endian quadruple. -/
theorem decodeOne_widthCodes_c2 (buf : List Nat) (lastValue lastValue2 : Int)
    (i : Nat) :
    decodeOne buf lastValue i 1 = decodeOne buf lastValue2 i 1 ∧
    (∀ b, buf[i]? = some b → b < 256 →
      decodeOne buf lastValue i 1 = .ok ((b : Int), i + 1)) ∧
    (∀ b, buf[i]? = some b → b < 256 →
      decodeOne buf lastValue i 2 =
        .ok (lastValue + (if b < 128 then (b : Int) else (b : Int) - 256), i + 1)) ∧
    (∀ b0 b1, buf[i]? = some b0 → buf[i + 1]? = some b1 → b0 < 256 → b1 < 256 →
      decodeOne buf lastValue i 3 =
        .ok (lastValue + (if b0 + 256 * b1 < 32768 then ((b0 + 256 * b1 : Nat) : Int)
          else ((b0 + 256 * b1 : Nat) : Int) - 65536), i + 2)) ∧
    (∀ b0 b1 b2, buf[i]? = some b0 → buf[i + 1]? = some b1 → buf[i + 2]? = some b2 →
      b0 < 256 → b1 < 256 → b2 < 256 →
      decodeOne buf lastValue i 4 =
        .ok (lastValue + ((b0 + 256 * b1 + 65536 * b2 : Nat) : Int), i + 3)) ∧
    (∀ b0 b1 b2 b3, buf[i]? = some b0 → buf[i + 1]? = some b1 →
      buf[i + 2]? = some b2 → buf[i + 3]? = some b3 → b0 < 256 → b1 < 256 → b2 < 256 →
      decodeOne buf lastValue i 5 =
        .ok (lastValue + ((b0 + 256 * b1 + 65536 * b2 : Nat) : Int), i + 4)) := by
  refine ⟨?_, ?_, ?_, ?_, ?_, ?_⟩
  · cases h : buf[i]? <;> simp [decodeOne, h]
  · intro b hb hlt
    simp only [decodeOne, hb]
    rw [and_255_eq_mod, Nat.mod_eq_of_lt hlt]
  · intro b hb hlt
    simp only [decodeOne, hb, int8OfByte, Nat.mod_eq_of_lt hlt]
  · intro b0 b1 hb0 hb1 hlt0 hlt1
    simp only [decodeOne, hb0, hb1, int16OfBytes, Nat.mod_eq_of_lt hlt0,
      Nat.mod_eq_of_lt hlt1]
  · intro b0 b1 b2 hb0 hb1 hb2 hlt0 hlt1 hlt2
    rw [decodeOne_code4_val buf lastValue i b0 b1 b2 hb0 hb1 hb2,
      Nat.mod_eq_of_lt hlt0, Nat.mod_eq_of_lt hlt1, Nat.mod_eq_of_lt hlt2]
  · intro b0 b1 b2 b3 hb0 hb1 hb2 hb3 hlt0 hlt1 hlt2
    rw [decodeOne_code5_val buf lastValue i b0 b1 b2 b3 hb0 hb1 hb2 hb3,
      Nat.mod_eq_of_lt hlt0, Nat.mod_eq_of_lt hlt1, Nat.mod_eq_of_lt hlt2]

/-- Witness for C2 at the buffer `[200, 1, 2, 3]`, cursor 0, with
`last_value = 7` (and `-5` for the independence conjunct). -/
theorem decodeOne_widthCodes_c2_witness :
    decodeOne [200, 1, 2, 3] 7 0 1 = decodeOne [200, 1, 2, 3] (-5) 0 1 ∧
    decodeOne [200, 1, 2, 3] 7 0 1 = .ok (((200 : Nat) : Int), 0 + 1) ∧
    decodeOne [200, 1, 2, 3] 7 0 2 =
      .ok (7 + (if (200 : Nat) < 128 then ((200 : Nat) : Int)
        else ((200 : Nat) : Int) - 256), 0 + 1) ∧
    decodeOne [200, 1, 2, 3] 7 0 3 =
      .ok (7 + (if (200 : Nat) + 256 * 1 < 32768 then ((200 + 256 * 1 : Nat) : Int)
        else ((200 + 256 * 1 : Nat) : Int) - 65536), 0 + 2) ∧
    decodeOne [200, 1, 2, 3] 7 0 4 =
      .ok (7 + ((200 + 256 * 1 + 65536 * 2 : Nat) : Int), 0 + 3) ∧
    decodeOne [200, 1, 2, 3] 7 0 5 =
      .ok (7 + ((200 + 256 * 1 + 65536 * 2 : Nat) : Int), 0 + 4) := by
  obtain ⟨w1, w2, w3, w4, w5, w6⟩ := decodeOne_widthCodes_c2 [200, 1, 2, 3] 7 (-5) 0
  exact ⟨w1, w2 200 rfl (by decide), w3 200 rfl (by decide),
    w4 200 1 rfl rfl (by decide) (by decide),
    w5 200 1 2 rfl rfl rfl (by decide) (by decide) (by decide),
    w6 200 1 2 3 rfl rfl rfl rfl (by decide) (by decide) (by decide)⟩

/-- C3: under width code 5 the cursor advances by 4 bytes but the value
is `last_value` plus only the low 24 bits of the 32-bit little-endian
field: two buffers agreeing on the three low bytes and differing in the
top byte of the field decode to the same value. -/
theorem decodeOne_code5_mask_c3 (buf buf2 : List Nat) (lastValue : Int) (i : Nat)
    (b0 b1 b2 b3 b3' : Nat)
    (h0 : buf[i]? = some b0) (h1 : buf[i + 1]? = some b1)
    (h2 : buf[i + 2]? = some b2) (h3 : buf[i + 3]? = some b3)
    (g0 : buf2[i]? = some b0) (g1 : buf2[i + 1]? = some b1)
    (g2 : buf2[i + 2]? = some b2) (g3 : buf2[i + 3]? = some b3') :
    decodeOne buf lastValue i 5 =
      .ok (lastValue +
        ((b0 % 256 + 256 * (b1 % 256) + 65536 * (b2 % 256) : Nat) : Int), i + 4) ∧
    decodeOne buf2 lastValue i 5 = decodeOne buf lastValue i 5 := by
  have e1 := decodeOne_code5_val buf lastValue i b0 b1 b2 b3 h0 h1 h2 h3
  have e2 := decodeOne_code5_val buf2 lastValue i b0 b1 b2 b3' g0 g1 g2 g3
  exact ⟨e1, by rw [e1, e2]⟩

/-- Witness for C3: the fields `[1,2,3,4]` and `[1,2,3,250]` differ only
in the top byte and decode to the same value, advancing the cursor by 4. -/
theorem decodeOne_code5_mask_c3_witness :
    decodeOne [1, 2, 3, 4] 7 0 5 =
      .ok (7 + ((1 % 256 + 256 * (2 % 256) + 65536 * (3 % 256) : Nat) : Int), 0 + 4) ∧
    decodeOne [1, 2, 3, 250] 7 0 5 = decodeOne [1, 2, 3, 4] 7 0 5 :=
  decodeOne_code5_mask_c3 [1, 2, 3, 4] [1, 2, 3, 250] 7 0 1 2 3 4 250
    rfl rfl rfl rfl rfl rfl rfl rfl

/-- Counterexample to C4: a width-code-0 run of length 1 started with
`last_value = 5` ends with `last_value = 0`, not with the prior value 5
(the source executes `last_value = result` with `result = 0` also in
the width-0 branch). -/
theorem decodeRun_width0_c4_counterexample :
    decodeRun [] 1 0 5 32 [] = .ok (0, 32, [0]) ∧ (0 : Int) ≠ 5 :=
  ⟨rfl, by decide⟩

/-- C4 amended: a width-code-0 run of repeat count `N` appends exactly
`N` zero-valued channels and consumes no data bytes beyond the control
word; when `N = 0` it leaves `last_value` unchanged, and when `N ≥ 1`
it sets `last_value` to 0 (the decoded zero is stored into `last_value`
like any other value). -/
theorem decodeRun_width0_c4_amended (buf : List Nat) (n : Nat) (lastValue : Int)
    (i : Nat) (data : List Int) :
    decodeRun buf n 0 lastValue i data =
      .ok (if n = 0 then lastValue else 0, i, data ++ List.replicate n 0) := by
  induction n generalizing lastValue data with
  | zero => simp [decodeRun]
  | succ m ih =>
    simp only [decodeRun, decodeOne]
    rw [ih]
    simp [List.replicate_succ]

/-- Counterexample to C5: `bufNeg` decodes successfully and its channel
sequence is `[-1]`, which contains a negative element (width code 2
applies a signed delta to `last_value = 0`). -/
theorem decode_nonneg_c5_counterexample :
    decode "RC-102" "001" bufNeg =
      .ok ⟨"RC-102", "001", 0, [0, 0, 0], [-1]⟩ ∧ ¬(0 : Int) ≤ -1 :=
  ⟨rfl, by decide⟩

/-- C5 amended: channel values need not be non-negative (signed deltas
under width codes 2 and 3 can drive the running value below zero), but
every element of a successfully decoded channel sequence is bounded
below by `-32768` times its one-based position: each decoding step
either produces a non-negative value or subtracts at most 32768. -/
theorem decode_lowerBound_c5_amended (name serial : String) (buf : List Nat)
    (r : SpectrumRecord) (h : decode name serial buf = .ok r) :
    ∀ (k : Nat) (x : Int), r.data[k]? = some x → -32768 * ((k : Int) + 1) ≤ x := by
  simp only [decode] at h
  cases hq : declaredSize? buf with
  | none => rw [hq] at h; simp at h
  | some d =>
    rw [hq] at h
    dsimp only at h
    by_cases hc : d + 4 ≠ (buf.length : Int)
    · rw [if_pos hc] at h; simp at h
    · rw [if_neg hc] at h
      cases r16 : readU32? buf 16 with
      | none => rw [r16] at h; simp at h
      | some t =>
        rw [r16] at h
        cases r20 : readU32? buf 20 with
        | none => rw [r20] at h; simp at h
        | some c0 =>
          rw [r20] at h
          cases r24 : readU32? buf 24 with
          | none => rw [r24] at h; simp at h
          | some c1 =>
            rw [r24] at h
            cases r28 : readU32? buf 28 with
            | none => rw [r28] at h; simp at h
            | some c2 =>
              rw [r28] at h
              dsimp only at h
              cases hl : decodeLoop buf (d + 4).toNat 0 32 [] with
              | error e => rw [hl] at h; simp at h
              | ok p =>
                obtain ⟨j, dat⟩ := p
                rw [hl] at h
                dsimp only at h
                obtain rfl : r = ⟨name, serial, t, [c0, c1, c2], dat⟩ := by
                  simpa using h.symm
                intro k x hk
                exact decodeLoopFuel_bound ((d + 4).toNat + 1) buf (d + 4).toNat
                  0 32 [] j dat hl (by simp)
                  (by intro k2 x2 hk2; simp at hk2) k x hk

/-- Witness for the amended C5: in the decode of `bufNeg` the element
`-1` at position 0 satisfies the bound `-32768 * 1 ≤ -1`. -/
theorem decode_lowerBound_c5_amended_witness :
    -32768 * (((0 : Nat) : Int) + 1) ≤ -1 :=
  decode_lowerBound_c5_amended "RC-102" "001" bufNeg
    ⟨"RC-102", "001", 0, [0, 0, 0], [-1]⟩ (by rfl) 0 (-1) rfl

/-- C6: when the decoding loop meets a control word whose bottom-4-bit
width code is outside `0..5` and whose repeat count is non-zero, it
fails with `unsupportedWidthCode` at that occurrence (the whole decode
attempt returns the error, so nothing is appended after the values
decoded before that point). -/
theorem decodeLoop_unsupported_c6 (buf : List Nat) (size : Nat) (lastValue : Int)
    (i : Nat) (data : List Int) (w : Nat)
    (hi : i < size) (hw : readWord? buf i = some w)
    (hcode : 6 ≤ w &&& 0x0F) (hcount : (w >>> 4) &&& 0x0FFF ≠ 0) :
    decodeLoop buf size lastValue i data = .error .unsupportedWidthCode := by
  have hone : decodeOne buf lastValue (i + 2) (w &&& 0x0F) =
      .error .unsupportedWidthCode := by
    rcases hc : w &&& 0x0F with _ | _ | _ | _ | _ | _ | c
    all_goals first
      | (rw [hc] at hcode; omega)
      | rfl
  have hrun : ∀ m, decodeRun buf (m + 1) (w &&& 0x0F) lastValue (i + 2) data =
      .error .unsupportedWidthCode := by
    intro m
    simp only [decodeRun]
    rw [hone]
  obtain ⟨m, hm⟩ : ∃ m, (w >>> 4) &&& 0x0FFF = m + 1 :=
    ⟨((w >>> 4) &&& 0x0FFF) - 1, by omega⟩
  simp only [decodeLoop, decodeLoopFuel]
  rw [if_pos hi, hw]
  dsimp only
  rw [hm, hrun m]

/-- Witness for C6: the two-byte buffer `[0x16, 0x00]` starts with the
control word `0x0016` (repeat count 1, width code 6) and the loop fails
with `unsupportedWidthCode`. -/
theorem decodeLoop_unsupported_c6_witness :
    decodeLoop [0x16, 0x00] 2 0 0 [] = .error .unsupportedWidthCode :=
  decodeLoop_unsupported_c6 [0x16, 0x00] 2 0 0 [] 0x16 (by decide) rfl
    (by decide) (by decide)

/-- C7: the channel-decoding loop returns a result only once the cursor
has reached or passed `size = declared_size + 4` (on success the final
cursor is at least `size`, and a loop entered with the cursor already
at or past `size` stops at once without touching the buffer), and a
width code whose data bytes would extend past the end of the buffer
fails with `truncatedBuffer` instead of reading past the end. -/
theorem decodeLoop_bounds_c7 (buf : List Nat) :
    (∀ (size : Nat) (lastValue : Int) (i : Nat) (data : List Int) (j : Nat)
      (d : List Int),
      decodeLoop buf size lastValue i data = .ok (j, d) → size ≤ j) ∧
    (∀ (size : Nat) (lastValue : Int) (i : Nat) (data : List Int), size ≤ i →
      decodeLoop buf size lastValue i data = .ok (i, data)) ∧
    (∀ (lastValue : Int) (i code : Nat), 1 ≤ code → code ≤ 5 →
      buf.length < i + bytesNeeded code →
      decodeOne buf lastValue i code = .error .truncatedBuffer) := by
  refine ⟨?_, ?_, ?_⟩
  · intro size lastValue i data j d h
    exact decodeLoopFuel_ok_ge (size + 1) buf size lastValue i data j d h
  · intro size lastValue i data hle
    simp only [decodeLoop, decodeLoopFuel]
    rw [if_neg (by omega)]
  · intro lastValue i code hc1 hc5 hlen
    interval_cases code
    · have hn : buf[i]? = none := List.getElem?_eq_none (by
        simp [bytesNeeded] at hlen; omega)
      simp [decodeOne, hn]
    · have hn : buf[i]? = none := List.getElem?_eq_none (by
        simp [bytesNeeded] at hlen; omega)
      simp [decodeOne, hn]
    · have hn : buf[i + 1]? = none := List.getElem?_eq_none (by
        simp [bytesNeeded] at hlen; omega)
      cases h0 : buf[i]? <;> simp [decodeOne, h0, hn]
    · have hn : buf[i + 2]? = none := List.getElem?_eq_none (by
        simp [bytesNeeded] at hlen; omega)
      cases h0 : buf[i]? <;> cases h1 : buf[i + 1]? <;>
        simp [decodeOne, h0, h1, hn]
    · have hn : buf[i + 3]? = none := List.getElem?_eq_none (by
        simp [bytesNeeded] at hlen; omega)
      cases h0 : buf[i]? <;> cases h1 : buf[i + 1]? <;> cases h2 : buf[i + 2]? <;>
        simp [decodeOne, h0, h1, h2, hn]

/-- Witness for C7: a successful loop over `[0x10, 0x00]` ends with the
cursor at `size = 2`; a loop entered at cursor 5 with `size = 0` stops
at once; and width code 3 at the end of an empty buffer fails with
`truncatedBuffer`. -/
theorem decodeLoop_bounds_c7_witness :
    (2 : Nat) ≤ 2 ∧ decodeLoop [] 0 0 5 [] = .ok (5, []) ∧
    decodeOne [] 0 0 3 = .error .truncatedBuffer := by
  refine ⟨?_, ?_, ?_⟩
  · exact (decodeLoop_bounds_c7 [0x10, 0x00]).1 2 0 0 [] 2 [0] rfl
  · exact (decodeLoop_bounds_c7 []).2.1 0 0 5 [] (by decide)
  · exact (decodeLoop_bounds_c7 []).2.2 0 0 3 (by decide) (by decide) (by decide)

/-- C8: the exported document contains exactly one `DataPoint` element
per decoded channel, with texts equal to the channel values in decoded
order, and its `NumberOfChannels` field equals the channel count; a
record with an empty channel sequence still yields the document, with
zero `DataPoint` elements. -/
theorem dumpXml_channels_c8 (rec : SpectrumRecord)
    (sname startText endText : String) (fmtCoeff : Nat → String) :
    xmlTexts "DataPoint" (dumpXmlDoc rec sname startText endText fmtCoeff) =
      rec.data.map (fun d => some (toString d)) ∧
    (xmlTexts "DataPoint" (dumpXmlDoc rec sname startText endText fmtCoeff)).length =
      rec.data.length ∧
    xmlTexts "NumberOfChannels" (dumpXmlDoc rec sname startText endText fmtCoeff) =
      [some (toString rec.data.length)] ∧
    xmlTexts "DataPoint"
      (dumpXmlDoc ⟨rec.deviceName, rec.deviceSerial, rec.time, rec.coefficientBits, []⟩
        sname startText endText fmtCoeff) = [] := by
  refine ⟨?_, ?_, ?_, ?_⟩ <;>
    simp [dumpXmlDoc, xmlTexts, xmlTextsOfList, xmlTextsOfList_map_leaf]

/-- C9: the duration formatter renders 3661 seconds as exactly
`"1 hour, 1 minute, 1 second"`: singular units, comma-space separated,
with the zero-valued days part omitted. -/
theorem formatTime_c9 : formatTime 3661 = "1 hour, 1 minute, 1 second" := by
  decide

/-- C10: a decode attempt never mutates the input buffer: running the
state-passing decoder (the source with the `bytearray` threaded as
explicit state through every access) returns the buffer byte-for-byte
unchanged, whether the result is a record or an error, and its result
agrees with the pure decoder. -/
theorem decodeSt_preserves_buffer_c10 (name serial : String) (buf : List Nat) :
    (decodeSt name serial buf).2 = buf ∧
    (decodeSt name serial buf).1 = decode name serial buf := by
  rw [decodeSt_spec]
  exact ⟨rfl, rfl⟩

end RadiaCode
